import Mathlib

/-!
Verification development for the mustache template engine in
`src/mustache.go` (package `template`, fork of cbroglie/mustache).

The Go code is shallowly embedded: template source text and all internal
strings are `List Char` (Go indexes bytes; templates here are treated as
sequences of characters), caller-supplied host data is the inductive `Val`
(the universe of host values covered by the embedding: nil/absent values,
booleans, integers, strings, slices/arrays, maps with string keys, structs
with named fields and zero-argument value-receiver methods, and pointers),
and `reflect`-based operations (`lookup`, `isEmpty`, `indirect`) are
translated case by case.  Functions that Go writes as unbounded loops or
general recursion (the scanner, the parser, the renderer, dotted-name
lookup) take an explicit fuel argument; every wrapper passes fuel that is
sufficient by construction, and running out of fuel yields the
distinguished error `MErr.fuelE` (never reached on the inputs used here).
-/

namespace Mustache

/-- Abbreviation used to write character-list literals from string literals. -/
def str (s : String) : List Char := s.data

/-- Go `unicode.IsSpace` restricted to the ASCII whitespace characters,
as used by `strings.TrimSpace`. -/
def isSpaceGo (c : Char) : Bool :=
  c = ' ' || c = '\t' || c = '\n' || c = '\r' || c = '\x0b' || c = '\x0c'

/-- Go `strings.TrimSpace`: drop leading and trailing whitespace. -/
def trimSpace (s : List Char) : List Char :=
  ((s.dropWhile isSpaceGo).reverse.dropWhile isSpaceGo).reverse

/-- Split a character list at the first occurrence of `c`: returns the part
before and the part after that occurrence, or `none` when `c` does not occur.
Models Go `strings.SplitN(s, string(c), 2)` (which yields two pieces exactly
when `c` occurs) and `strings.Contains(s, string(c))` (the `isSome` test). -/
def splitFirst (c : Char) : List Char → Option (List Char × List Char)
  | [] => none
  | x :: rest =>
    if x = c then some ([], rest)
    else match splitFirst c rest with
      | some (a, b) => some (x :: a, b)
      | none => none

/-- Go slice expression `data[a:b]`. -/
def slice (data : List Char) (a b : Nat) : List Char :=
  (data.take b).drop a

/-- Host values visible to the engine: the shapes of Go data the embedding
covers.  `vnil` stands for an invalid `reflect.Value` and for a nil
interface value; `vstruct` carries the type's zero-argument value-receiver
methods (name, result) next to its named fields; `vptr .vnil` is a nil
pointer. -/
inductive Val where
  | vnil
  | vbool (b : Bool)
  | vint (n : Int)
  | vstr (s : List Char)
  | vlist (l : List Val)
  | vmap (entries : List (String × Val))
  | vstruct (meths : List (String × Val)) (fields : List (String × Val))
  | vptr (inner : Val)

/-- Go `reflect.Value.IsValid` negated: recognizes the invalid/nil value. -/
def isNilV : Val → Bool
  | .vnil => true
  | _ => false

/-- First-match association-list lookup (Go map keys and struct field names
are unique, so first match is the only match). -/
def lookupAssoc : List (String × Val) → String → Option Val
  | [], _ => none
  | (k, v) :: rest, name => if k = name then some v else lookupAssoc rest name

mutual
/-- Go `reflect.Value.IsZero`, on the covered value shapes: `false` for
booleans, `0` for integers, `""` for strings, nil for pointers, all fields
zero for structs.  Non-nil slices and maps are never the zero value of
their type (the embedding models only non-nil slices and maps; a nil slice
or map is represented as `vnil`). -/
def isZeroGo : Val → Bool
  | .vnil => true
  | .vbool b => !b
  | .vint n => n = 0
  | .vstr s => s.isEmpty
  | .vlist _ => false
  | .vmap _ => false
  | .vstruct _ fields => isZeroFields fields
  | .vptr inner => isNilV inner
/-- Conjunction of `isZeroGo` over the values of a field list. -/
def isZeroFields : List (String × Val) → Bool
  | [] => true
  | (_, v) :: rest => isZeroGo v && isZeroFields rest
end

/-- Go `indirect` (src/mustache.go:559): unwrap pointer/interface layers
until a non-pointer value (or an invalid value) remains. -/
def indirect : Val → Val
  | .vptr inner => indirect inner
  | v => v

/-- Go `isEmpty` (src/mustache.go:540): invalid/nil is empty; otherwise
indirect the value, then: slices and arrays are empty iff their length is 0,
strings are empty iff they trim to nothing, everything else is empty iff it
is its type's zero value. -/
def isEmptyGo (v : Val) : Bool :=
  if isNilV v then true
  else
    let valueInd := indirect v
    if isNilV valueInd then true
    else match valueInd with
      | .vlist l => l.length = 0
      | .vstr s => (trimSpace s).isEmpty
      | _ => isZeroGo valueInd

/-- Single-context step of Go `lookup`'s inner `for v.IsValid()` loop
(src/mustache.go:498): an invalid value ends the loop (no result in this
context); otherwise a zero-argument method named `name` wins, then the
identity name `"."` returns the value itself, then pointers are
dereferenced and retried, then struct fields / map keys are consulted;
any other kind yields no result in this context. -/
def lookupCtx : Val → String → Option Val
  | .vnil, _ => none
  | v, name =>
    let mres := match v with
      | .vstruct meths _ => lookupAssoc meths name
      | _ => none
    match mres with
    | some r => some r
    | none =>
      if name = "." then some v
      else match v with
        | .vptr inner => lookupCtx inner name
        | .vstruct _ fields => lookupAssoc fields name
        | .vmap entries => lookupAssoc entries name
        | _ => none

/-- Outer loop of Go `lookup`: scan the context chain innermost-first,
stopping at the first context that yields a result. -/
def scanChain : List Val → String → Option Val
  | [], _ => none
  | ctx :: rest, name =>
    match lookupCtx ctx name with
    | some r => some r
    | none => scanChain rest name

/-- Render-time and parse-time errors.  `parseE` is Go's `parseError`
(line and message); `missingVar` is the `fmt.Errorf("Missing variable %q")`
error; `notFoundE` is `ErrPartialNotFound`; `panicE` marks a place
where the Go code would panic at run time; `fuelE` is the out-of-fuel
marker of the embedding (unreachable with the fuel the wrappers supply). -/
inductive MErr where
  | parseE (line : Nat) (message : List Char)
  | missingVar (name : List Char)
  | notFoundE (name : List Char)
  | panicE (msg : List Char)
  | fuelE
deriving DecidableEq

/-- Fueled body of Go `lookup` (src/mustache.go:483).  A dotted name other
than `"."` is split at its first dot; the head is resolved against the full
chain and the tail against a one-element chain holding that result.  A
plain name is scanned innermost-first; when no context has it, the result
is an error if `errMissing` is set and the absent value otherwise.  The
fuel strictly exceeds the name length at every call, so `fuelE` is
unreachable. -/
def lookupAux : Nat → List Val → List Char → Bool → Except MErr Val
  | 0, _, _, _ => .error .fuelE
  | _fuel+1, chain, name, errMissing =>
    if name ≠ str "." then
      match splitFirst '.' name with
      | some (p0, p1) =>
        match lookupAux _fuel chain p0 errMissing with
        | .error e => .error e
        | .ok v => lookupAux _fuel [v] p1 errMissing
      | none =>
        match scanChain chain (String.mk name) with
        | some v => .ok v
        | none =>
          if errMissing then .error (.missingVar name) else .ok .vnil
    else
      match scanChain chain (String.mk name) with
      | some v => .ok v
      | none =>
        if errMissing then .error (.missingVar name) else .ok .vnil

/-- Go `lookup` with the always-sufficient fuel `name.length + 1`
(each recursion step strictly shortens the name). -/
def lookupGo (chain : List Val) (name : List Char) (errMissing : Bool) :
    Except MErr Val :=
  lookupAux (name.length + 1) chain name errMissing

/-- Space-separated concatenation, as `fmt` uses between the elements of a
slice or the fields of a struct. -/
def joinSpace : List (List Char) → List Char
  | [] => []
  | [x] => x
  | x :: rest => x ++ ' ' :: joinSpace rest

mutual
/-- Go `fmt.Sprint(v.Interface())` on the covered value shapes.  Scalars
print exactly as `fmt` does (`true`/`false`, decimal integers, strings
verbatim, `<nil>` for nil).  Composite and pointer printing is an
abstraction: slices print as `[e1 e2]`, structs as `{f1 f2}`, maps as
`map[k1:v1 ...]` in entry order (Go sorts keys), and a pointer prints as
`&` before its target where Go would print a machine address. -/
def printVal : Val → List Char
  | .vnil => str "<nil>"
  | .vbool true => str "true"
  | .vbool false => str "false"
  | .vint n => (toString n).data
  | .vstr s => s
  | .vlist l => '[' :: (joinSpace (printList l) ++ [']'])
  | .vmap entries => str "map[" ++ (joinSpace (printEntries entries) ++ [']'])
  | .vstruct _ fields => '{' :: (joinSpace (printFields fields) ++ ['}'])
  | .vptr inner => '&' :: printVal inner
/-- Elementwise printing of a slice. -/
def printList : List Val → List (List Char)
  | [] => []
  | v :: rest => printVal v :: printList rest
/-- Entrywise `key:value` printing of a map. -/
def printEntries : List (String × Val) → List (List Char)
  | [] => []
  | (k, v) :: rest => (k.data ++ ':' :: printVal v) :: printEntries rest
/-- Fieldwise value printing of a struct. -/
def printFields : List (String × Val) → List (List Char)
  | [] => []
  | (_, v) :: rest => printVal v :: printFields rest
end

/-- Go `html/template.HTMLEscape`: the five special characters are replaced
by their entities and a NUL byte by the Unicode replacement character. -/
def htmlEscape : List Char → List Char
  | [] => []
  | c :: rest =>
    (if c = '"' then str "&#34;"
     else if c = '\x27' then str "&#39;"
     else if c = '&' then str "&amp;"
     else if c = '<' then str "&lt;"
     else if c = '>' then str "&gt;"
     else if c = '\x00' then "�".data
     else [c]) ++ htmlEscape rest

/-- Parse-position state of a `Template` during compilation: the source
text, the active open/close delimiters, the cursor offset and the current
line counter (Go fields `data`, `otag`, `ctag`, `p`, `curline`). -/
structure PSt where
  data : List Char
  otag : List Char
  ctag : List Char
  p : Nat
  curline : Nat
deriving DecidableEq

/-- Scan of Go `readString` (src/mustache.go:186): starting at offset `i`
with `rest = data[i:]`, find the first occurrence of `s`; count the
newlines at offsets `p ≤ j ≤ matchPos` on the way (Go increments before
the match test, so a newline at the match position itself is counted).
Returns the match offset and the newline count, or `none` when `s` does
not occur before the end of the data (Go's `io.EOF` path, entered as soon
as fewer than `s.length` characters remain). -/
def rsAux (s : List Char) : List Char → Nat → Nat → Option (Nat × Nat)
  | rest, i, nl =>
    match rest with
    | [] => none
    | c :: rs =>
      if rest.length < s.length then none
      else
        let nl := if c = '\n' then nl + 1 else nl
        if rest.take s.length = s then some (i, nl)
        else rsAux s rs (i + 1) nl

/-- Go `Template.readString`: the consumed text (from the cursor through
the end of the found marker), the updated state, and an end-of-input flag.
On EOF the remaining tail is returned and the state is unchanged. -/
def readStringGo (st : PSt) (s : List Char) : List Char × PSt × Bool :=
  match rsAux s (st.data.drop st.p) st.p 0 with
  | none => (st.data.drop st.p, st, true)
  | some (i, nl) =>
    let e := i + s.length
    (slice st.data st.p e,
     { st with p := e, curline := st.curline + nl }, false)

/-- Backward scan of Go `readText` (src/mustache.go:239): starting at
`i`, step back over spaces and tabs but never before `pPrev`. -/
def backScan (data : List Char) (pPrev : Nat) : Nat → Nat
  | 0 => 0
  | i + 1 =>
    if pPrev < i + 1 then
      match data.get? i with
      | some c => if c = ' ' || c = '\t' then backScan data pPrev i else i + 1
      | none => i + 1
    else i + 1

/-- Result of Go `readText`: the text before the tag, the whitespace
padding just before the open delimiter, whether the coming tag may be
standalone, the end-of-input flag, and the updated state. -/
structure TextResult where
  text : List Char
  padding : List Char
  mayStandalone : Bool
  eof : Bool
  st : PSt
deriving DecidableEq

/-- Go `Template.readText` (src/mustache.go:227): read up to and including
the next open delimiter; on EOF return the tail.  Otherwise scan backward
over spaces/tabs from just before the delimiter: the tag may be standalone
exactly when that scan reaches the start of the data or stops after a
newline, and in that case the skipped whitespace is returned separately as
padding. -/
def readTextGo (st : PSt) : TextResult :=
  let pPrev := st.p
  let r := readStringGo st st.otag
  if r.2.2 then
    { text := r.1, padding := [], mayStandalone := false, eof := true, st := r.2.1 }
  else
    let st1 := r.2.1
    let i := backScan st1.data pPrev (st1.p - st.otag.length)
    let mayStandalone : Bool := i = 0 || st1.data.get? (i - 1) = some '\n'
    if mayStandalone then
      { text := slice st1.data pPrev i,
        padding := slice st1.data i (st1.p - st.otag.length),
        mayStandalone := true, eof := false, st := st1 }
    else
      { text := slice st1.data pPrev (st1.p - st.otag.length),
        padding := [], mayStandalone := false, eof := false, st := st1 }

/-- Forward scan of Go `readTag` (src/mustache.go:289): the offset of the
first character at or after `p` that is not a space or tab; `p` itself
when every remaining character is a space or tab (Go's loop then never
assigns `eow`). -/
def eowScan (data : List Char) (p : Nat) : Nat :=
  match (data.drop p).findIdx? (fun c => !(c = ' ' || c = '\t')) with
  | some k => p + k
  | none => p

/-- Result of Go `readTag`: the trimmed tag text, the standalone flag and
the updated state. -/
structure TagResult where
  tag : List Char
  standalone : Bool
  st : PSt
deriving DecidableEq

/-- Go `Template.readTag` (src/mustache.go:267): read through the close
delimiter (through `}` + close delimiter when the cursor sits on `{`),
strip the close delimiter, trim the tag text, and reject an empty tag or a
missing close delimiter.  When the tag may be standalone and starts with
one of `#^/<>=!`, a line end directly after the tag (only spaces/tabs
between) is consumed and the tag is marked standalone; Go initializes
`standalone` to `true`, so a tag that may not be standalone reports
`true` (its padding is empty, making the two cases indistinguishable to
the parser). -/
def readTagGo (st : PSt) (mayStandalone : Bool) : Except MErr TagResult :=
  let r :=
    if st.p < st.data.length ∧ st.data.get? st.p = some '{' then
      readStringGo st ('}' :: st.ctag)
    else
      readStringGo st st.ctag
  if r.2.2 then .error (.parseE st.curline (str "unmatched open tag"))
  else
    let st1 := r.2.1
    let text := r.1.take (r.1.length - st.ctag.length)
    let tag := trimSpace text
    if tag.isEmpty then .error (.parseE st1.curline (str "empty tag"))
    else
      let eow := eowScan st1.data st1.p
      if mayStandalone then
        if !(str "#^/<>=!").contains (tag.headD ' ') then
          .ok { tag := tag, standalone := false, st := st1 }
        else if eow = st1.data.length then
          .ok { tag := tag, standalone := true, st := { st1 with p := eow } }
        else if eow < st1.data.length ∧ st1.data.get? eow = some '\n' then
          .ok { tag := tag, standalone := true,
                st := { st1 with p := eow + 1, curline := st1.curline + 1 } }
        else if eow + 1 < st1.data.length ∧ st1.data.get? eow = some '\r' ∧
                st1.data.get? (eow + 1) = some '\n' then
          .ok { tag := tag, standalone := true,
                st := { st1 with p := eow + 2, curline := st1.curline + 1 } }
        else
          .ok { tag := tag, standalone := false, st := st1 }
      else
        .ok { tag := tag, standalone := true, st := st1 }

/-- Behaviour required of a source of named sub-templates: Go interface
`PartialProvider` (its single method `Get`). -/
def PartialProvider : Type := List Char → Except MErr (List Char)

/-- Compiled document-tree nodes: Go `textElement`, `varElement`,
`sectionElement` and `partialElement` (the latter keeps its name, the
captured indentation and a reference to the provider). -/
inductive Elem where
  | textE (s : List Char)
  | varE (name : List Char) (raw : Bool)
  | sectionE (name : List Char) (inverted : Bool) (startline : Nat)
      (elems : List Elem)
  | partE (name : List Char) (indent : List Char) (prov : PartialProvider)

mutual
/-- Go `Template.parse` (src/mustache.go:408): the top-level loop reading
text and tags until end of input, dispatching on the tag's first character;
`acc` is `tmpl.elems`.  On end of input the trailing text becomes a final
text node and parsing succeeds.  A close tag here has no open section and
fails with "unmatched close tag". -/
def parseGo : Nat → PSt → PartialProvider → List Elem →
    Except MErr (PSt × List Elem)
  | 0, _, _, _ => .error .fuelE
  | fuel+1, st, prov, acc =>
    let tr := readTextGo st
    if tr.eof then .ok (tr.st, acc ++ [.textE tr.text])
    else
      let acc1 := acc ++ [.textE tr.text]
      match readTagGo tr.st tr.mayStandalone with
      | .error e => .error e
      | .ok tg =>
        let acc2 := if !tg.standalone then acc1 ++ [.textE tr.padding] else acc1
        let tag := tg.tag
        let st1 := tg.st
        let c := tag.headD ' '
        if c = '!' then
          parseGo fuel st1 prov acc2
        else if c = '#' ∨ c = '^' then
          match parseSectionGo fuel st1 prov (trimSpace tag.tail) st1.curline [] with
          | .error e => .error e
          | .ok (st2, selems) =>
            parseGo fuel st2 prov
              (acc2 ++ [.sectionE (trimSpace tag.tail) (c = '^') st1.curline selems])
        else if c = '/' then
          .error (.parseE st1.curline (str "unmatched close tag"))
        else if c = '>' then
          parseGo fuel st1 prov (acc2 ++ [.partE (trimSpace tag.tail) tr.padding prov])
        else if c = '=' then
          if tag.getLastD ' ' ≠ '=' then
            .error (.parseE st1.curline (str "Invalid meta tag"))
          else if tag.length = 1 then
            .error (.panicE (str "slice bounds out of range"))
          else
            match splitFirst ' ' (trimSpace (slice tag 1 (tag.length - 1))) with
            | some (no, nc) => parseGo fuel { st1 with otag := no, ctag := nc } prov acc2
            | none => parseGo fuel st1 prov acc2
        else if c = '{' then
          if tag.getLastD ' ' = '}' then
            parseGo fuel st1 prov
              (acc2 ++ [.varE (trimSpace (slice tag 1 (tag.length - 1))) true])
          else
            parseGo fuel st1 prov acc2
        else if c = '&' then
          parseGo fuel st1 prov (acc2 ++ [.varE (trimSpace tag.tail) true])
        else
          parseGo fuel st1 prov (acc2 ++ [.varE tag false])

/-- Go `Template.parseSection` (src/mustache.go:333): like the top-level
loop, but inside the section named `secName` that was opened when the line
counter read `startline`; `acc` is `section.elems`.  End of input fails
with the unterminated-section error carrying `startline`; a close tag
returns to the caller when its name matches `secName` and fails with
"interleaved closing tag" otherwise. -/
def parseSectionGo : Nat → PSt → PartialProvider → List Char → Nat →
    List Elem → Except MErr (PSt × List Elem)
  | 0, _, _, _, _, _ => .error .fuelE
  | fuel+1, st, prov, secName, startline, acc =>
    let tr := readTextGo st
    if tr.eof then
      .error (.parseE startline
        (str "Section " ++ secName ++ str " has no closing tag"))
    else
      let acc1 := acc ++ [.textE tr.text]
      match readTagGo tr.st tr.mayStandalone with
      | .error e => .error e
      | .ok tg =>
        let acc2 := if !tg.standalone then acc1 ++ [.textE tr.padding] else acc1
        let tag := tg.tag
        let st1 := tg.st
        let c := tag.headD ' '
        if c = '!' then
          parseSectionGo fuel st1 prov secName startline acc2
        else if c = '#' ∨ c = '^' then
          match parseSectionGo fuel st1 prov (trimSpace tag.tail) st1.curline [] with
          | .error e => .error e
          | .ok (st2, selems) =>
            parseSectionGo fuel st2 prov secName startline
              (acc2 ++ [.sectionE (trimSpace tag.tail) (c = '^') st1.curline selems])
        else if c = '/' then
          if trimSpace tag.tail ≠ secName then
            .error (.parseE st1.curline
              (str "interleaved closing tag: " ++ trimSpace tag.tail))
          else
            .ok (st1, acc2)
        else if c = '>' then
          parseSectionGo fuel st1 prov secName startline
            (acc2 ++ [.partE (trimSpace tag.tail) tr.padding prov])
        else if c = '=' then
          if tag.getLastD ' ' ≠ '=' then
            .error (.parseE st1.curline (str "Invalid meta tag"))
          else if tag.length = 1 then
            .error (.panicE (str "slice bounds out of range"))
          else
            match splitFirst ' ' (trimSpace (slice tag 1 (tag.length - 1))) with
            | some (no, nc) =>
              parseSectionGo fuel { st1 with otag := no, ctag := nc } prov secName startline acc2
            | none => parseSectionGo fuel st1 prov secName startline acc2
        else if c = '{' then
          if tag.getLastD ' ' = '}' then
            parseSectionGo fuel st1 prov secName startline
              (acc2 ++ [.varE (trimSpace (slice tag 1 (tag.length - 1))) true])
          else
            parseSectionGo fuel st1 prov secName startline acc2
        else if c = '&' then
          parseSectionGo fuel st1 prov secName startline
            (acc2 ++ [.varE (trimSpace tag.tail) true])
        else
          parseSectionGo fuel st1 prov secName startline (acc2 ++ [.varE tag false])
end

/-- Compiled template: Go struct `Template` (source text, the delimiters
left active at end of parse, final cursor and line, the root node list,
the provider and the missing-variable flag). -/
structure Template where
  data : List Char
  otag : List Char
  ctag : List Char
  p : Nat
  curline : Nat
  elems : List Elem
  prov : PartialProvider
  errmiss : Bool

/-- Go `ParseStringPartials` (src/mustache.go:717): compile `data` with
delimiters `{{`/`}}` from offset 0, line 1; on success the final parse
state, the node list and the provider make up the `Template`
(`errmiss` starts false). -/
def parseStringPartials (data : List Char) (prov : PartialProvider) :
    Except MErr Template :=
  match parseGo (data.length + 1) ⟨data, str "\x7b\x7b", str "\x7d\x7d", 0, 1⟩ prov [] with
  | .error e => .error e
  | .ok (st, elems) =>
    .ok ⟨data, st.otag, st.ctag, st.p, st.curline, elems, prov, false⟩

/-- Go `emptyProvider.Get`: always the empty string, no error. -/
def emptyProviderGo : PartialProvider := fun _ => .ok []

/-- Go `ParseString`: compile with the empty provider. -/
def parseString (data : List Char) : Except MErr Template :=
  parseStringPartials data emptyProviderGo

/-- Association-list lookup with character-list keys, for `StaticProvider`. -/
def lookupAssocL : List (List Char × List Char) → List Char → Option (List Char)
  | [], _ => none
  | (k, v) :: rest, name => if k = name then some v else lookupAssocL rest name

/-- Go `StaticProvider.Get`: partials drawn from a name-to-source mapping;
an unknown name is the distinguishable partial-not-found error. -/
def staticProviderGo (m : List (List Char × List Char)) : PartialProvider :=
  fun name =>
    match lookupAssocL m name with
    | some d => .ok d
    | none => .error (.notFoundE name)

/-- Go `Template.SetErrorOnMissing`: enable the missing-variable error. -/
def SetErrorOnMissing (tmpl : Template) : Template := { tmpl with errmiss := true }

/-- Split at every newline, keeping empty pieces, so that
`data = joinNl (splitOnNl data)`. -/
def splitOnNl : List Char → List (List Char)
  | [] => [[]]
  | c :: rest =>
    if c = '\n' then [] :: splitOnNl rest
    else
      match splitOnNl rest with
      | l :: ls => (c :: l) :: ls
      | [] => [[c]]

/-- Rejoin the pieces produced by `splitOnNl` with newlines. -/
def joinNl : List (List Char) → List Char
  | [] => []
  | [l] => l
  | l :: rest => l ++ '\n' :: joinNl rest

/-- Go `nonEmptyLine.ReplaceAllString(data, indent+"$1")` with the pattern
`(?m:^(.+)$)` (src/mustache.go:786): prepend `indent` to every line that
contains at least one character. -/
def indentLines (indent data : List Char) : List Char :=
  joinNl ((splitOnNl data).map (fun l => if l.isEmpty then l else indent ++ l))

/-- Go `getPartials` (src/mustache.go:779): ask the provider for the raw
source, re-indent its non-empty lines with the node's captured indentation
and compile the result as a fresh sub-template sharing the provider. -/
def getPartials (prov : PartialProvider) (name indent : List Char) :
    Except MErr Template :=
  match prov name with
  | .error e => .error e
  | .ok data => parseStringPartials (indentLines indent data) prov

mutual
/-- Go `Template.renderElement` (src/mustache.go:619), one node against a
context chain, extending the output buffer `buf`: text is emitted verbatim;
a variable is resolved with the template's missing-variable flag, an
invalid result emits nothing, and otherwise the printed value is emitted
raw or HTML-escaped; a section is Go `renderSection` (src/mustache.go:574):
its name is resolved with missing-variable errors disabled, the outermost
chain entry is fetched (Go panics here when the chain is empty), the
truthiness test against the inverted flag decides whether anything renders,
and the iteration contexts are the unwrapped elements for a slice or array,
the resolved value itself for a map or struct, and the outermost chain
entry for any other truthy scalar as well as for a rendering inverted
section; a partial node fetches and compiles its source through
`getPartials` on every render and renders the sub-template against the
unmodified chain.  Fuel decreases at every call; the result pairs the
extended buffer with an error, if any. -/
def renderElemGo : Nat → Template → Elem → List Val → List Char →
    List Char × Option MErr
  | 0, _, _, _, buf => (buf, some .fuelE)
  | _fuel+1, tmpl, el, chain, buf =>
    match el with
    | .textE s => (buf ++ s, none)
    | .varE name raw =>
      match lookupGo chain name tmpl.errmiss with
      | .error e => (buf, some e)
      | .ok val =>
        if isNilV val then (buf, none)
        else if raw then (buf ++ printVal val, none)
        else (buf ++ htmlEscape (printVal val), none)
    | .sectionE name inv _ elems =>
      match lookupGo chain name false with
      | .error e => (buf, some e)
      | .ok value =>
        match chain.getLast? with
        | none => (buf, some (.panicE (str "index out of range")))
        | some context =>
          let empty := isEmptyGo value
          if (empty && !inv) || (!empty && inv) then (buf, none)
          else
            let contexts : List Val :=
              if !inv then
                match indirect value with
                | .vlist l => l
                | .vmap _ => [value]
                | .vstruct _ _ => [value]
                | _ => [context]
              else [context]
            renderLoopGo _fuel tmpl contexts elems chain buf
    | .partE name indent prov =>
      match getPartials prov name indent with
      | .error e => (buf, some e)
      | .ok sub => renderTemplateGo _fuel sub chain buf

/-- Node-list iteration shared by `renderTemplate` and `renderSection`:
render each node in turn, stopping at the first error. -/
def renderListGo : Nat → Template → List Elem → List Val → List Char →
    List Char × Option MErr
  | 0, _, _, _, buf => (buf, some .fuelE)
  | _fuel+1, _, [], _, buf => (buf, none)
  | _fuel+1, tmpl, el :: rest, chain, buf =>
    match renderElemGo _fuel tmpl el chain buf with
    | (buf1, none) => renderListGo _fuel tmpl rest chain buf1
    | (buf1, some e) => (buf1, some e)

/-- The `for _, ctx := range contexts` loop of Go `renderSection`: render
the body once per iteration context, each pushed innermost onto the chain
(`chain2[0] = ctx`), stopping at the first error. -/
def renderLoopGo : Nat → Template → List Val → List Elem → List Val →
    List Char → List Char × Option MErr
  | 0, _, _, _, _, buf => (buf, some .fuelE)
  | _fuel+1, _, [], _, _, buf => (buf, none)
  | _fuel+1, tmpl, ctx :: rest, elems, chain, buf =>
    match renderListGo _fuel tmpl elems (ctx :: chain) buf with
    | (buf1, none) => renderLoopGo _fuel tmpl rest elems chain buf1
    | (buf1, some e) => (buf1, some e)

/-- Go `Template.renderTemplate` (src/mustache.go:653): render every root
node in order, stopping at the first error. -/
def renderTemplateGo : Nat → Template → List Val → List Char →
    List Char × Option MErr
  | 0, _, _, buf => (buf, some .fuelE)
  | _fuel+1, tmpl, chain, buf => renderListGo _fuel tmpl tmpl.elems chain buf
end

/-- Go `Template.FRender` (src/mustache.go:664): render to a caller-owned
sink; the context arguments become the chain in the order given. -/
def FRenderGo (fuel : Nat) (tmpl : Template) (contexts : List Val)
    (buf : List Char) : List Char × Option MErr :=
  renderTemplateGo fuel tmpl contexts buf

/-- Go `Template.Render` (src/mustache.go:675): render into an internal
buffer and return `buf.String(), err` — whatever accumulated in the buffer
is returned even when `err` is non-nil. -/
def RenderGo (fuel : Nat) (tmpl : Template) (contexts : List Val) :
    List Char × Option MErr :=
  FRenderGo fuel tmpl contexts []

/-- Go `Template.FRenderInLayout` (src/mustache.go:695): render the inner
template to a string first, then render the layout with a one-key
`content` map pushed innermost onto the same chain. -/
def FRenderInLayout (fuel : Nat) (tmpl layout : Template) (contexts : List Val)
    (buf : List Char) : List Char × Option MErr :=
  match RenderGo fuel tmpl contexts with
  | (_, some e) => (buf, some e)
  | (content, none) =>
    FRenderGo fuel layout (Val.vmap [("content", .vstr content)] :: contexts) buf

/-- Go `Template.RenderInLayout` (src/mustache.go:684): like
`FRenderInLayout` into an internal buffer, but on error the returned
string is empty. -/
def RenderInLayout (fuel : Nat) (tmpl layout : Template)
    (contexts : List Val) : List Char × Option MErr :=
  match FRenderInLayout fuel tmpl layout contexts [] with
  | (_, some e) => ([], some e)
  | (s, none) => (s, none)

mutual
/-- Modelled from the spec: "equal to its type's zero value".  The zero
value of the type of a covered value: `false`, `0`, the empty string, the
nil pointer, fieldwise zero for a struct (same type, hence same methods
and field names); the zero value of a slice or map type is the nil
slice/map, which this embedding represents as `vnil`, so a (non-nil)
`vlist`/`vmap` is never its own type's zero value. -/
def zeroOfShape : Val → Val
  | .vnil => .vnil
  | .vbool _ => .vbool false
  | .vint _ => .vint 0
  | .vstr _ => .vstr []
  | .vlist _ => .vnil
  | .vmap _ => .vnil
  | .vstruct meths fields => .vstruct meths (zeroFields fields)
  | .vptr _ => .vptr .vnil
/-- Fieldwise zero values of a struct's fields. -/
def zeroFields : List (String × Val) → List (String × Val)
  | [] => []
  | (k, v) :: rest => (k, zeroOfShape v) :: zeroFields rest
end

/-- Modelled from the spec's truthiness paragraph: "an absent/nil value is
empty; after unwrapping through any number of indirection layers, an empty
list/array (length 0), a string that is empty after trimming surrounding
whitespace, or any other value equal to its type's zero value, is empty;
everything else is non-empty." -/
def specEmpty (v : Val) : Prop :=
  v = .vnil ∨
  indirect v = .vnil ∨
  (∃ l, indirect v = .vlist l ∧ l.length = 0) ∨
  (∃ s, indirect v = .vstr s ∧ trimSpace s = []) ∨
  indirect v = zeroOfShape (indirect v)

/-- Kind test matching the `default` arm of the `renderSection` switch on
the indirected value: neither slice/array nor map nor struct. -/
def sectionScalarKind : Val → Bool
  | .vlist _ => false
  | .vmap _ => false
  | .vstruct _ _ => false
  | _ => true

/-- Inert compiled template (no nodes, default configuration), used to
instantiate theorems whose conclusion does not depend on the template's
node list. -/
def tmpl0 : Template :=
  ⟨[], str "\x7b\x7b", str "\x7d\x7d", 0, 1, [], emptyProviderGo, false⟩

/-- Splitting a list at the first occurrence of a character accounts for
every character: the two parts plus the removed occurrence. -/
theorem splitFirst_some_length {c : Char} :
    ∀ {s a b : List Char}, splitFirst c s = some (a, b) →
      a.length + b.length + 1 = s.length := by
  intro s
  induction s with
  | nil => intro a b h; simp [splitFirst] at h
  | cons x rest ih =>
    intro a b h
    by_cases hx : x = c
    · simp [splitFirst, hx] at h
      obtain ⟨ha, hb⟩ := h
      subst ha; subst hb; simp
    · simp only [splitFirst, if_neg hx] at h
      cases hs : splitFirst c rest with
      | none => rw [hs] at h; simp at h
      | some p =>
        obtain ⟨a1, b1⟩ := p
        rw [hs] at h
        simp at h
        obtain ⟨ha, hb⟩ := h
        subst ha; subst hb
        have := ih hs
        simp only [List.length_cons]
        omega

/-- On a name that is `"."` or contains no dot, `lookup` is exactly the
innermost-first chain scan, with the missing-variable error gated on
`errMissing`. -/
theorem lookupGo_nondotted (chain : List Val) (name : List Char) (em : Bool)
    (hnd : splitFirst '.' name = none ∨ name = str ".") :
    lookupGo chain name em =
      match scanChain chain (String.mk name) with
      | some v => .ok v
      | none => if em then .error (.missingVar name) else .ok .vnil := by
  by_cases hdot : name = str "."
  · simp [lookupGo, lookupAux, hdot]
  · rcases hnd with h | h
    · simp [lookupGo, lookupAux, hdot, h]
    · exact absurd h hdot

/-- C5 (confirmed): on a non-dotted name, lookup scans the chain
innermost-first; a context that yields a result — via method, field or
key — ends the scan with that result no matter what outer contexts hold
and no matter how the missing-variable flag is set, and in a struct a
zero-argument method of the name is consulted before (and instead of) the
like-named field; a context with no method, field or key match merely
advances the scan to the next outer context. -/
theorem c5_lookup_order (name : List Char)
    (hnd : splitFirst '.' name = none ∨ name = str ".") :
    (∀ (c : Val) (rest : List Val) (r : Val) (em : Bool),
       lookupCtx c (String.mk name) = some r →
       lookupGo (c :: rest) name em = .ok r) ∧
    (∀ (meths fields : List (String × Val)) (rest : List Val) (r : Val) (em : Bool),
       lookupAssoc meths (String.mk name) = some r →
       lookupGo (.vstruct meths fields :: rest) name em = .ok r) ∧
    (∀ (c : Val) (rest : List Val) (em : Bool),
       lookupCtx c (String.mk name) = none →
       lookupGo (c :: rest) name em = lookupGo rest name em) := by
  refine ⟨?_, ?_, ?_⟩
  · intro c rest r em h
    rw [lookupGo_nondotted _ _ _ hnd]
    simp [scanChain, h]
  · intro meths fields rest r em h
    rw [lookupGo_nondotted _ _ _ hnd]
    simp [scanChain, lookupCtx, h]
  · intro c rest em h
    rw [lookupGo_nondotted _ _ _ hnd, lookupGo_nondotted _ _ _ hnd]
    simp [scanChain, h]

/-- Witness for C5: a key found innermost with value zero shadows an outer
non-zero binding; a struct method shadows its like-named field; a scalar
context with no match falls through to the outer context. -/
theorem c5_lookup_order_witness :
    lookupGo [.vmap [("x", .vint 0)], .vmap [("x", .vint 7)]] (str "x") true =
      .ok (.vint 0) ∧
    lookupGo [.vstruct [("m", .vstr (str "meth"))] [("m", .vstr (str "field"))]]
      (str "m") false = .ok (.vstr (str "meth")) ∧
    lookupGo [.vint 3, .vmap [("y", .vint 9)]] (str "y") false =
      lookupGo [.vmap [("y", .vint 9)]] (str "y") false :=
  ⟨(c5_lookup_order (str "x") (Or.inl rfl)).1 _ _ _ _ rfl,
   (c5_lookup_order (str "m") (Or.inl rfl)).2.1 _ _ _ _ _ rfl,
   (c5_lookup_order (str "y") (Or.inl rfl)).2.2 _ _ _ rfl⟩

/-- Against the one-element chain holding only the absent value, lookup
without the missing-variable flag yields the absent value, whatever the
(possibly dotted) name. -/
theorem lookupAux_nilchain : ∀ (fuel : Nat) (name : List Char),
    name.length < fuel → lookupAux fuel [Val.vnil] name false = .ok .vnil := by
  intro fuel
  induction fuel with
  | zero => intro name h; omega
  | succ f ih =>
    intro name hlen
    by_cases hdot : name = str "."
    · simp [lookupAux, hdot, scanChain, lookupCtx]
    · cases hs : splitFirst '.' name with
      | none => simp [lookupAux, hdot, hs, scanChain, lookupCtx]
      | some p =>
        obtain ⟨p0, p1⟩ := p
        have hl := splitFirst_some_length hs
        have h0 : p0.length < f := by omega
        have h1 : p1.length < f := by omega
        simp [lookupAux, hdot, hs, ih p0 h0, ih p1 h1]

/-- On a name that is `"."` or contains no dot, `lookupAux` at any
positive fuel is the innermost-first chain scan, with the missing-variable
error gated on `errMissing`. -/
theorem lookupAux_nondotted (f : Nat) (chain : List Val) (name : List Char)
    (em : Bool) (hnd : splitFirst '.' name = none ∨ name = str ".") :
    lookupAux (f + 1) chain name em =
      match scanChain chain (String.mk name) with
      | some v => .ok v
      | none => if em then .error (.missingVar name) else .ok .vnil := by
  by_cases hdot : name = str "."
  · simp [lookupAux, hdot]
  · rcases hnd with h | h
    · simp [lookupAux, hdot, h]
    · exact absurd h hdot

/-- With enough fuel, the missing-variable flag is observable only in the
no-result case: a successful lookup is flag-independent, and a failing
lookup fails with a missing-variable error exactly when the flag is set
and yields the absent value otherwise. -/
theorem lookupAux_em : ∀ (fuel : Nat) (chain : List Val) (name : List Char),
    name.length < fuel →
    (∀ v, lookupAux fuel chain name true = .ok v →
          lookupAux fuel chain name false = .ok v) ∧
    (∀ e, lookupAux fuel chain name true = .error e →
          (∃ nm, e = .missingVar nm) ∧
          lookupAux fuel chain name false = .ok .vnil) := by
  intro fuel
  induction fuel with
  | zero => intro chain name h; omega
  | succ f ih =>
    intro chain name hlen
    rcases hsplit : splitFirst '.' name with _ | ⟨p0, p1⟩
    · rw [lookupAux_nondotted f chain name true (Or.inl hsplit),
          lookupAux_nondotted f chain name false (Or.inl hsplit)]
      cases hs2 : scanChain chain (String.mk name) with
      | none =>
        refine ⟨?_, ?_⟩
        · intro v hv; simp at hv
        · intro e he
          simp only [if_pos rfl] at he
          have he2 : MErr.missingVar name = e := by
            simpa using he
          exact ⟨⟨name, he2.symm⟩, by simp⟩
      | some w =>
        exact ⟨fun v hv => hv, fun e he => by simp at he⟩
    · by_cases hdot : name = str "."
      · rw [lookupAux_nondotted f chain name true (Or.inr hdot),
            lookupAux_nondotted f chain name false (Or.inr hdot)]
        cases hs2 : scanChain chain (String.mk name) with
        | none =>
          refine ⟨?_, ?_⟩
          · intro v hv; simp at hv
          · intro e he
            have he2 : MErr.missingVar name = e := by
              simpa using he
            exact ⟨⟨name, he2.symm⟩, by simp⟩
        | some w =>
          exact ⟨fun v hv => hv, fun e he => by simp at he⟩
      · have hl := splitFirst_some_length hsplit
        have h0 : p0.length < f := by omega
        have h1 : p1.length < f := by omega
        constructor
        · intro v hv
          revert hv
          cases h00 : lookupAux f chain p0 true with
          | error e0 => simp [lookupAux, hdot, hsplit, h00]
          | ok v0 =>
            have hok0 := (ih chain p0 h0).1 v0 h00
            simp [lookupAux, hdot, hsplit, h00, hok0]
            intro hv
            exact (ih [v0] p1 h1).1 v hv
        · intro e he
          revert he
          cases h00 : lookupAux f chain p0 true with
          | error e0 =>
            have herr0 := (ih chain p0 h0).2 e0 h00
            simp [lookupAux, hdot, hsplit, h00, herr0.2]
            intro h
            subst h
            exact ⟨herr0.1, lookupAux_nilchain f p1 h1⟩
          | ok v0 =>
            have hok0 := (ih chain p0 h0).1 v0 h00
            simp [lookupAux, hdot, hsplit, h00, hok0]
            intro hv
            exact (ih [v0] p1 h1).2 e hv

/-- A lookup that fails with the missing-variable flag set fails precisely
with a missing-variable error, and the same lookup without the flag yields
the absent value. -/
theorem lookupGo_error (chain : List Val) (name : List Char) (e : MErr)
    (h : lookupGo chain name true = .error e) :
    (∃ nm, e = .missingVar nm) ∧ lookupGo chain name false = .ok .vnil :=
  (lookupAux_em (name.length + 1) chain name (by omega)).2 e h

/-- C7 (confirmed): when a variable's name resolves to nothing, rendering
the variable node fails with the missing-variable error exactly on a
template configured with `SetErrorOnMissing`, and on a template with the
default configuration the node emits nothing and rendering continues
without error. -/
theorem c7_missing_variable (chain : List Val) (name : List Char) (e : MErr)
    (hE : lookupGo chain name true = .error e) :
    (∃ nm, e = .missingVar nm) ∧
    (∀ (fuel : Nat) (tmpl : Template) (raw : Bool) (buf : List Char),
      renderElemGo (fuel + 1) (SetErrorOnMissing tmpl) (.varE name raw) chain buf =
        (buf, some e)) ∧
    (∀ (fuel : Nat) (tmpl : Template) (raw : Bool) (buf : List Char),
      tmpl.errmiss = false →
      renderElemGo (fuel + 1) tmpl (.varE name raw) chain buf = (buf, none)) := by
  obtain ⟨hnm, hF⟩ := lookupGo_error chain name e hE
  refine ⟨hnm, ?_, ?_⟩
  · intro fuel tmpl raw buf
    simp [renderElemGo, SetErrorOnMissing, hE]
  · intro fuel tmpl raw buf hm
    simp [renderElemGo, hm, hF, isNilV]

/-- Witness for C7: the variable `y` against a single empty map errors
under `SetErrorOnMissing` and silently emits nothing by default. -/
theorem c7_missing_variable_witness :
    renderElemGo 1 (SetErrorOnMissing tmpl0) (.varE (str "y") false) [.vmap []] [] =
      ([], some (.missingVar (str "y"))) ∧
    renderElemGo 1 tmpl0 (.varE (str "y") false) [.vmap []] [] = ([], none) :=
  ⟨(c7_missing_variable [.vmap []] (str "y") (.missingVar (str "y")) rfl).2.1 0 tmpl0 false [],
   (c7_missing_variable [.vmap []] (str "y") (.missingVar (str "y")) rfl).2.2 0 tmpl0 false [] rfl⟩

/-- C9 (confirmed): `renderSection` resolves the section name with the
missing-variable error hard-disabled (`lookup(contextChain, section.name,
false)`), so even on a template configured with `SetErrorOnMissing` a
section whose name resolves to nothing never raises the missing-variable
error: the value is the absent value, hence empty, a normal section
renders nothing, and an inverted section renders its body once (with the
outermost chain entry pushed innermost). -/
theorem c9_section_no_missing_error (chain : List Val) (name : List Char)
    (e : MErr) (context : Val)
    (hE : lookupGo chain name true = .error e)
    (hlast : chain.getLast? = some context) :
    (∀ (fuel : Nat) (tmpl : Template) (sl : Nat) (elems : List Elem)
       (buf : List Char),
      renderElemGo (fuel + 1) (SetErrorOnMissing tmpl)
          (.sectionE name false sl elems) chain buf = (buf, none)) ∧
    (∀ (fuel : Nat) (tmpl : Template) (sl : Nat) (elems : List Elem)
       (buf : List Char),
      renderElemGo (fuel + 1) (SetErrorOnMissing tmpl)
          (.sectionE name true sl elems) chain buf =
        renderLoopGo fuel (SetErrorOnMissing tmpl) [context] elems chain buf) := by
  obtain ⟨-, hF⟩ := lookupGo_error chain name e hE
  constructor
  · intro fuel tmpl sl elems buf
    simp [renderElemGo, hF, hlast, isEmptyGo, isNilV, indirect]
  · intro fuel tmpl sl elems buf
    simp [renderElemGo, hF, hlast, isEmptyGo, isNilV, indirect]

/-- Witness for C9: a section and an inverted section over the unresolvable
name `n`, on a `SetErrorOnMissing` template, render without any
missing-variable error. -/
theorem c9_section_no_missing_error_witness :
    renderElemGo 1 (SetErrorOnMissing tmpl0)
        (.sectionE (str "n") false 0 []) [.vmap []] [] = ([], none) ∧
    renderElemGo 1 (SetErrorOnMissing tmpl0)
        (.sectionE (str "n") true 0 []) [.vmap []] [] =
      renderLoopGo 0 (SetErrorOnMissing tmpl0) [.vmap []] [] [.vmap []] [] :=
  ⟨(c9_section_no_missing_error [.vmap []] (str "n")
      (.missingVar (str "n")) (.vmap []) rfl rfl).1 0 tmpl0 0 [] [],
   (c9_section_no_missing_error [.vmap []] (str "n")
      (.missingVar (str "n")) (.vmap []) rfl rfl).2 0 tmpl0 0 [] []⟩

set_option maxHeartbeats 2000000 in
/-- C1 (corrected): counterexample to the claim as stated.  With the
two-level chain `[{s: true, x: "inner"}, {x: "outer"}]` the section
`{{#s}}{{x}}{{/s}}` over the truthy scalar `s` renders `outer`, while the
same variable `{{x}}` immediately outside any section renders `inner` —
inside the section the variable does NOT resolve as it would outside,
because `renderSection` pushes the outermost chain entry as a new
innermost scope instead of leaving the chain unchanged. -/
theorem c1_counterexample :
    (match parseString (str "\x7b\x7b#s\x7d\x7d\x7b\x7bx\x7d\x7d\x7b\x7b/s\x7d\x7d") with
     | .ok t => RenderGo 100 t
         [.vmap [("s", .vbool true), ("x", .vstr (str "inner"))],
          .vmap [("x", .vstr (str "outer"))]]
     | .error _ => ([], some .fuelE)) = (str "outer", none) ∧
    (match parseString (str "\x7b\x7bx\x7d\x7d") with
     | .ok t => RenderGo 100 t
         [.vmap [("s", .vbool true), ("x", .vstr (str "inner"))],
          .vmap [("x", .vstr (str "outer"))]]
     | .error _ => ([], some .fuelE)) = (str "inner", none) ∧
    str "outer" ≠ str "inner" := by
  exact ⟨by decide, by decide, by decide⟩

/-- C1 (corrected), amended: when a non-inverted section's value is a
non-empty scalar (not a slice, array, map or struct after indirection),
and when an inverted section's value is empty, the body is rendered
exactly once — but against the chain with the OUTERMOST chain entry
pushed as the new innermost context (`contextChain[len(contextChain)-1]`),
not against the unchanged chain; only for a one-element chain does this
coincide with the enclosing scope. -/
theorem c1_scalar_section_scope (chain : List Val) (name : List Char)
    (value context : Val)
    (hv : lookupGo chain name false = .ok value)
    (hlast : chain.getLast? = some context) :
    (∀ (fuel : Nat) (tmpl : Template) (sl : Nat) (elems : List Elem)
       (buf : List Char),
      isEmptyGo value = false →
      sectionScalarKind (indirect value) = true →
      renderElemGo (fuel + 1) tmpl (.sectionE name false sl elems) chain buf =
        renderLoopGo fuel tmpl [context] elems chain buf) ∧
    (∀ (fuel : Nat) (tmpl : Template) (sl : Nat) (elems : List Elem)
       (buf : List Char),
      isEmptyGo value = true →
      renderElemGo (fuel + 1) tmpl (.sectionE name true sl elems) chain buf =
        renderLoopGo fuel tmpl [context] elems chain buf) := by
  constructor
  · intro fuel tmpl sl elems buf hempty hkind
    simp only [renderElemGo, hv, hlast, hempty]
    cases hk : indirect value with
    | vlist l => rw [hk] at hkind; simp [sectionScalarKind] at hkind
    | vmap es => rw [hk] at hkind; simp [sectionScalarKind] at hkind
    | vstruct ms fs => rw [hk] at hkind; simp [sectionScalarKind] at hkind
    | _ => simp [hk]
  · intro fuel tmpl sl elems buf hempty
    simp [renderElemGo, hv, hlast, hempty]

/-- Witness for C1's amended statement: a truthy boolean section over a
two-level chain renders its body once with the outer map pushed innermost,
and an inverted section over an absent name does the same. -/
theorem c1_scalar_section_scope_witness :
    renderElemGo 3 tmpl0 (.sectionE (str "s") false 0 [.varE (str "x") false])
        [.vmap [("s", .vbool true), ("x", .vstr (str "inner"))],
         .vmap [("x", .vstr (str "outer"))]] [] =
      renderLoopGo 2 tmpl0 [.vmap [("x", .vstr (str "outer"))]]
        [.varE (str "x") false]
        [.vmap [("s", .vbool true), ("x", .vstr (str "inner"))],
         .vmap [("x", .vstr (str "outer"))]] [] ∧
    renderElemGo 3 tmpl0 (.sectionE (str "s") true 0 [])
        [.vmap [("x", .vstr (str "z"))]] [] =
      renderLoopGo 2 tmpl0 [.vmap [("x", .vstr (str "z"))]] []
        [.vmap [("x", .vstr (str "z"))]] [] :=
  ⟨(c1_scalar_section_scope
      [.vmap [("s", .vbool true), ("x", .vstr (str "inner"))],
       .vmap [("x", .vstr (str "outer"))]]
      (str "s") (.vbool true) (.vmap [("x", .vstr (str "outer"))]) rfl rfl).1
      2 tmpl0 0 [.varE (str "x") false] [] rfl rfl,
   (c1_scalar_section_scope [.vmap [("x", .vstr (str "z"))]]
      (str "s") .vnil (.vmap [("x", .vstr (str "z"))]) rfl rfl).2
      2 tmpl0 0 [] [] rfl⟩

/-- Indirection never stops at a pointer: its result is either the invalid
value or a non-pointer value. -/
theorem indirect_no_ptr : ∀ (v i : Val), indirect v ≠ .vptr i
  | .vnil, i => by simp [indirect]
  | .vbool b, i => by simp [indirect]
  | .vint n, i => by simp [indirect]
  | .vstr s, i => by simp [indirect]
  | .vlist l, i => by simp [indirect]
  | .vmap es, i => by simp [indirect]
  | .vstruct ms fs, i => by simp [indirect]
  | .vptr inner, i => by simpa [indirect] using indirect_no_ptr inner i

mutual
/-- A value passes Go's `IsZero` exactly when it equals the zero value of
its own type. -/
theorem isZeroGo_shape : ∀ (v : Val), isZeroGo v = true ↔ v = zeroOfShape v
  | .vnil => by simp [isZeroGo, zeroOfShape]
  | .vbool b => by cases b <;> simp [isZeroGo, zeroOfShape]
  | .vint n => by simp [isZeroGo, zeroOfShape]
  | .vstr s => by simp [isZeroGo, zeroOfShape, List.isEmpty_iff]
  | .vlist l => by simp [isZeroGo, zeroOfShape]
  | .vmap es => by simp [isZeroGo, zeroOfShape]
  | .vstruct meths fields => by
      have h := isZeroFields_shape fields
      simp [isZeroGo, zeroOfShape, h]
  | .vptr inner => by cases inner <;> simp [isZeroGo, zeroOfShape, isNilV]
/-- Field lists pass the fieldwise zero test exactly when they equal their
fieldwise zeroing. -/
theorem isZeroFields_shape : ∀ (fs : List (String × Val)),
    isZeroFields fs = true ↔ fs = zeroFields fs
  | [] => by simp [isZeroFields, zeroFields]
  | (k, v) :: rest => by
      have h1 := isZeroGo_shape v
      have h2 := isZeroFields_shape rest
      simp [isZeroFields, zeroFields, h1, h2]
end

/-- The code's `isEmpty` decides exactly the truthiness predicate stated
by the spec. -/
theorem isEmptyGo_iff_specEmpty (v : Val) : isEmptyGo v = true ↔ specEmpty v := by
  by_cases hnil : v = Val.vnil
  · subst hnil
    simp [isEmptyGo, specEmpty, isNilV, indirect]
  · have hnv : isNilV v = false := by
      cases v <;> simp_all [isNilV]
    cases hi : indirect v with
    | vnil => simp [isEmptyGo, specEmpty, hnv, hi, isNilV]
    | vbool b =>
      cases b <;>
        simp [isEmptyGo, specEmpty, hnil, hnv, hi, isNilV, isZeroGo, zeroOfShape]
    | vint n =>
      simp [isEmptyGo, specEmpty, hnil, hnv, hi, isNilV, isZeroGo, zeroOfShape]
    | vstr s =>
      constructor
      · intro h
        have hs : (trimSpace s).isEmpty = true := by
          simpa [isEmptyGo, hnv, hi, isNilV] using h
        exact Or.inr (Or.inr (Or.inr (Or.inl ⟨s, hi, List.isEmpty_iff.mp hs⟩)))
      · intro h
        rcases h with h | h | ⟨l, hl, _⟩ | ⟨s2, hs2, ht⟩ | hz
        · exact absurd h hnil
        · rw [hi] at h; cases h
        · rw [hi] at hl; cases hl
        · rw [hi] at hs2
          cases hs2
          simp [isEmptyGo, hnv, hi, isNilV, ht]
        · rw [hi] at hz
          simp [zeroOfShape] at hz
          cases hz
          simp [isEmptyGo, hnv, hi, isNilV, trimSpace]
    | vlist l =>
      simp [isEmptyGo, specEmpty, hnil, hnv, hi, isNilV, zeroOfShape]
    | vmap es =>
      simp [isEmptyGo, specEmpty, hnil, hnv, hi, isNilV, isZeroGo, zeroOfShape]
    | vstruct meths fields =>
      have h := isZeroFields_shape fields
      simp [isEmptyGo, specEmpty, hnil, hnv, hi, isNilV, isZeroGo, zeroOfShape, h]
    | vptr inner => exact absurd hi (indirect_no_ptr v inner)

/-- C6 (confirmed): the code's emptiness test agrees, for every covered
value, with the spec's truthiness rule (nil/absent, or — after unwrapping
all indirection — a length-0 list/array, a string that trims to nothing,
or the type's zero value); and a normal section renders its body iff the
looked-up value is non-empty while an inverted section renders its body
iff it is empty (the rendering cases hand the body to the iteration loop
with a non-empty context list). -/
theorem c6_truthiness (chain : List Val) (name : List Char)
    (value context : Val)
    (hv : lookupGo chain name false = .ok value)
    (hlast : chain.getLast? = some context) :
    (∀ v, isEmptyGo v = true ↔ specEmpty v) ∧
    (isEmptyGo value = true →
      ∀ (fuel : Nat) (tmpl : Template) (sl : Nat) (elems : List Elem)
        (buf : List Char),
        renderElemGo (fuel + 1) tmpl (.sectionE name false sl elems) chain buf =
          (buf, none)) ∧
    (isEmptyGo value = false →
      ∀ (fuel : Nat) (tmpl : Template) (sl : Nat) (elems : List Elem)
        (buf : List Char),
        renderElemGo (fuel + 1) tmpl (.sectionE name true sl elems) chain buf =
          (buf, none)) ∧
    (isEmptyGo value = false →
      ∀ (fuel : Nat) (tmpl : Template) (sl : Nat) (elems : List Elem)
        (buf : List Char),
        ∃ contexts, contexts ≠ [] ∧
          renderElemGo (fuel + 1) tmpl (.sectionE name false sl elems) chain buf =
            renderLoopGo fuel tmpl contexts elems chain buf) ∧
    (isEmptyGo value = true →
      ∀ (fuel : Nat) (tmpl : Template) (sl : Nat) (elems : List Elem)
        (buf : List Char),
        renderElemGo (fuel + 1) tmpl (.sectionE name true sl elems) chain buf =
          renderLoopGo fuel tmpl [context] elems chain buf) := by
  refine ⟨isEmptyGo_iff_specEmpty, ?_, ?_, ?_, ?_⟩
  · intro he fuel tmpl sl elems buf
    simp [renderElemGo, hv, hlast, he]
  · intro he fuel tmpl sl elems buf
    simp [renderElemGo, hv, hlast, he]
  · intro he fuel tmpl sl elems buf
    cases hk : indirect value with
    | vnil =>
      exfalso
      have h2 : isEmptyGo value = true := by simp [isEmptyGo, hk, isNilV]
      rw [he] at h2
      exact Bool.noConfusion h2
    | vlist l =>
      refine ⟨l, ?_, by simp [renderElemGo, hv, hlast, he, hk]⟩
      intro hl
      subst hl
      have h2 : isEmptyGo value = true := by simp [isEmptyGo, hk, isNilV]
      rw [he] at h2
      exact Bool.noConfusion h2
    | vmap es =>
      exact ⟨[value], by simp, by simp [renderElemGo, hv, hlast, he, hk]⟩
    | vstruct ms fs =>
      exact ⟨[value], by simp, by simp [renderElemGo, hv, hlast, he, hk]⟩
    | vbool b =>
      exact ⟨[context], by simp, by simp [renderElemGo, hv, hlast, he, hk]⟩
    | vint n =>
      exact ⟨[context], by simp, by simp [renderElemGo, hv, hlast, he, hk]⟩
    | vstr s2 =>
      exact ⟨[context], by simp, by simp [renderElemGo, hv, hlast, he, hk]⟩
    | vptr i => exact absurd hk (indirect_no_ptr value i)
  · intro he fuel tmpl sl elems buf
    simp [renderElemGo, hv, hlast, he]

/-- Witness for C6: over the one-entry chain `[{}]` the name `t` resolves
to the absent (hence empty) value, so the normal section renders nothing
and the inverted section hands its body to the iteration loop. -/
theorem c6_truthiness_witness :
    renderElemGo 1 tmpl0 (.sectionE (str "t") false 0 []) [.vmap []] [] =
      ([], none) ∧
    renderElemGo 1 tmpl0 (.sectionE (str "t") true 0 []) [.vmap []] [] =
      renderLoopGo 0 tmpl0 [.vmap []] [] [.vmap []] [] :=
  ⟨(c6_truthiness [.vmap []] (str "t") .vnil (.vmap []) rfl rfl).2.1 rfl
      0 tmpl0 0 [] [],
   (c6_truthiness [.vmap []] (str "t") .vnil (.vmap []) rfl rfl).2.2.2.2 rfl
      0 tmpl0 0 [] []⟩

/-- Rendering only ever appends to the output buffer: whatever a render
step returns, its first component extends the incoming buffer. -/
theorem render_mono : ∀ (fuel : Nat),
    (∀ (tmpl : Template) (el : Elem) (chain : List Val) (buf : List Char),
       ∃ t, (renderElemGo fuel tmpl el chain buf).1 = buf ++ t) ∧
    (∀ (tmpl : Template) (elems : List Elem) (chain : List Val)
       (buf : List Char),
       ∃ t, (renderListGo fuel tmpl elems chain buf).1 = buf ++ t) ∧
    (∀ (tmpl : Template) (ctxs : List Val) (elems : List Elem)
       (chain : List Val) (buf : List Char),
       ∃ t, (renderLoopGo fuel tmpl ctxs elems chain buf).1 = buf ++ t) ∧
    (∀ (tmpl : Template) (chain : List Val) (buf : List Char),
       ∃ t, (renderTemplateGo fuel tmpl chain buf).1 = buf ++ t) := by
  intro fuel
  induction fuel with
  | zero =>
    refine ⟨?_, ?_, ?_, ?_⟩ <;> intros <;>
      exact ⟨[], by simp [renderElemGo, renderListGo, renderLoopGo,
                          renderTemplateGo]⟩
  | succ f ih =>
    obtain ⟨ihE, ihL, ihP, ihT⟩ := ih
    refine ⟨?_, ?_, ?_, ?_⟩
    · intro tmpl el chain buf
      cases el with
      | textE s => exact ⟨s, by simp [renderElemGo]⟩
      | varE nm raw =>
        cases h : lookupGo chain nm tmpl.errmiss with
        | error e => exact ⟨[], by simp [renderElemGo, h]⟩
        | ok val =>
          cases hn : isNilV val with
          | true => exact ⟨[], by simp [renderElemGo, h, hn]⟩
          | false =>
            cases raw with
            | true => exact ⟨printVal val, by simp [renderElemGo, h, hn]⟩
            | false =>
              exact ⟨htmlEscape (printVal val), by simp [renderElemGo, h, hn]⟩
      | sectionE nm inv sl elems =>
        cases h : lookupGo chain nm false with
        | error e => exact ⟨[], by simp [renderElemGo, h]⟩
        | ok value =>
          cases hL : chain.getLast? with
          | none => exact ⟨[], by simp [renderElemGo, h, hL]⟩
          | some ctx =>
            cases hc : (isEmptyGo value && !inv) || (!(isEmptyGo value) && inv) with
            | true => exact ⟨[], by simp [renderElemGo, h, hL, hc]⟩
            | false =>
              have hgoal :
                  renderElemGo (f + 1) tmpl (.sectionE nm inv sl elems) chain buf =
                    renderLoopGo f tmpl
                      (if !inv then
                        match indirect value with
                        | .vlist l => l
                        | .vmap _ => [value]
                        | .vstruct _ _ => [value]
                        | _ => [ctx]
                       else [ctx]) elems chain buf := by
                simp [renderElemGo, h, hL, hc]
              rw [hgoal]
              exact ihP tmpl _ elems chain buf
      | partE nm indent prov =>
        cases h : getPartials prov nm indent with
        | error e => exact ⟨[], by simp [renderElemGo, h]⟩
        | ok sub =>
          have hgoal :
              renderElemGo (f + 1) tmpl (.partE nm indent prov) chain buf =
                renderTemplateGo f sub chain buf := by
            simp [renderElemGo, h]
          rw [hgoal]
          exact ihT sub chain buf
    · intro tmpl elems chain buf
      cases elems with
      | nil => exact ⟨[], by simp [renderListGo]⟩
      | cons el rest =>
        obtain ⟨t1, ht1⟩ := ihE tmpl el chain buf
        rcases h : renderElemGo f tmpl el chain buf with ⟨buf1, oe⟩
        rw [h] at ht1
        cases oe with
        | none =>
          obtain ⟨t2, ht2⟩ := ihL tmpl rest chain buf1
          refine ⟨t1 ++ t2, ?_⟩
          simp only [renderListGo, h]
          simp only at ht1
          rw [ht2, ht1, List.append_assoc]
        | some e =>
          refine ⟨t1, ?_⟩
          simp only [renderListGo, h]
          simpa using ht1
    · intro tmpl ctxs elems chain buf
      cases ctxs with
      | nil => exact ⟨[], by simp [renderLoopGo]⟩
      | cons ctx rest =>
        obtain ⟨t1, ht1⟩ := ihL tmpl elems (ctx :: chain) buf
        rcases h : renderListGo f tmpl elems (ctx :: chain) buf with ⟨buf1, oe⟩
        rw [h] at ht1
        cases oe with
        | none =>
          obtain ⟨t2, ht2⟩ := ihP tmpl rest elems chain buf1
          refine ⟨t1 ++ t2, ?_⟩
          simp only [renderLoopGo, h]
          simp only at ht1
          rw [ht2, ht1, List.append_assoc]
        | some e =>
          refine ⟨t1, ?_⟩
          simp only [renderLoopGo, h]
          simpa using ht1
    · intro tmpl chain buf
      exact ihL tmpl tmpl.elems chain buf

set_option maxHeartbeats 1000000 in
/-- C2 (corrected): counterexample to the claim as stated.  Rendering
`x{{y}}` under `SetErrorOnMissing` with no matching context fails with the
missing-variable error, yet `Render` returns the non-empty partial output
`"x"` alongside the error — the internal buffer is NOT discarded. -/
theorem c2_counterexample :
    (match parseString (str "x\x7b\x7by\x7d\x7d") with
     | .ok t => RenderGo 100 (SetErrorOnMissing t) []
     | .error _ => ([], none)) = (str "x", some (.missingVar (str "y"))) ∧
    str "x" ≠ ([] : List Char) := ⟨by decide, by decide⟩

/-- C2 (corrected), amended: an error still aborts the render at the point
it occurs, but `Render` returns the output accumulated in its internal
buffer up to that point together with the error (the buffer is append-only,
so that string extends everything already rendered); it is the layout
variant `RenderInLayout` that returns the empty string on error. -/
theorem c2_render_error_buffer :
    (∀ (fuel : Nat) (tmpl : Template) (chain : List Val) (s : List Char)
       (e : MErr),
      RenderGo fuel tmpl chain = (s, some e) →
      s = (renderTemplateGo fuel tmpl chain []).1) ∧
    (∀ (fuel : Nat) (tmpl : Template) (elems : List Elem) (chain : List Val)
       (buf : List Char),
      ∃ t, (renderListGo fuel tmpl elems chain buf).1 = buf ++ t) ∧
    (∀ (fuel : Nat) (tmpl layout : Template) (chain : List Val)
       (s : List Char) (e : MErr),
      RenderInLayout fuel tmpl layout chain = (s, some e) → s = []) := by
  refine ⟨?_, ?_, ?_⟩
  · intro fuel tmpl chain s e h
    exact (congrArg Prod.fst h).symm
  · intro fuel tmpl elems chain buf
    exact (render_mono fuel).2.1 tmpl elems chain buf
  · intro fuel tmpl layout chain s e h
    revert h
    simp only [RenderInLayout]
    rcases hfl : FRenderInLayout fuel tmpl layout chain [] with ⟨s1, oe⟩
    cases oe with
    | none =>
      intro h
      exact absurd (congrArg Prod.snd h) (by simp)
    | some e1 =>
      intro h
      exact ((Prod.mk.injEq _ _ _ _).mp h).1.symm

/-- Witness for C2's amended statement: on the failing render of `x{{y}}`
(missing-variable configuration, empty chain) the returned string is the
partial buffer content, and the layout variant returns the empty string on
the same failure. -/
theorem c2_render_error_buffer_witness :
    str "x" =
      (renderTemplateGo 10
        ⟨str "x\x7b\x7by\x7d\x7d", str "\x7b\x7b", str "\x7d\x7d", 6, 1,
         [.textE (str "x"), .varE (str "y") false], emptyProviderGo, true⟩
        [] []).1 ∧
    ([] : List Char) = [] :=
  ⟨c2_render_error_buffer.1 10
      ⟨str "x\x7b\x7by\x7d\x7d", str "\x7b\x7b", str "\x7d\x7d", 6, 1,
       [.textE (str "x"), .varE (str "y") false], emptyProviderGo, true⟩
      [] (str "x") (.missingVar (str "y")) (by decide),
   c2_render_error_buffer.2.2 10
      ⟨str "x\x7b\x7by\x7d\x7d", str "\x7b\x7b", str "\x7d\x7d", 6, 1,
       [.textE (str "x"), .varE (str "y") false], emptyProviderGo, true⟩
      tmpl0 [] [] (.missingVar (str "y")) (by decide)⟩

set_option maxHeartbeats 1000000 in
/-- C10 (confirmed): a tag whose trimmed body begins with `{` but does not
end with `}` is silently discarded: at top level and inside a section the
parser continues in the same state with only the surrounding text (and,
for a non-standalone tag, the padding) appended — no node for the tag, no
error; concretely, `a{{ {foo}}b` compiles and renders `ab`. -/
theorem c10_brace_tag_dropped :
    (∀ (fuel : Nat) (st : PSt) (prov : PartialProvider) (acc : List Elem)
       (tg : TagResult),
      (readTextGo st).eof = false →
      readTagGo (readTextGo st).st (readTextGo st).mayStandalone = .ok tg →
      tg.tag.headD ' ' = '{' →
      tg.tag.getLastD ' ' ≠ '}' →
      parseGo (fuel + 1) st prov acc =
        parseGo fuel tg.st prov
          (acc ++ [.textE (readTextGo st).text] ++
            (if tg.standalone then ([] : List Elem)
             else [.textE (readTextGo st).padding]))) ∧
    (∀ (fuel : Nat) (st : PSt) (prov : PartialProvider) (secName : List Char)
       (sl : Nat) (acc : List Elem) (tg : TagResult),
      (readTextGo st).eof = false →
      readTagGo (readTextGo st).st (readTextGo st).mayStandalone = .ok tg →
      tg.tag.headD ' ' = '{' →
      tg.tag.getLastD ' ' ≠ '}' →
      parseSectionGo (fuel + 1) st prov secName sl acc =
        parseSectionGo fuel tg.st prov secName sl
          (acc ++ [.textE (readTextGo st).text] ++
            (if tg.standalone then ([] : List Elem)
             else [.textE (readTextGo st).padding]))) ∧
    ((match parseString (str "a\x7b\x7b \x7bfoo\x7d\x7db") with
      | .ok t => RenderGo 100 t [.vmap []]
      | .error _ => ([], some .fuelE)) = (str "ab", none)) := by
  refine ⟨?_, ?_, by decide⟩
  · intro fuel st prov acc tg h1 h2 hc hl
    simp only [List.headD_eq_head?_getD] at hc
    simp only [List.getLastD_eq_getLast?] at hl
    cases hsa : tg.standalone <;>
      simp [parseGo, h1, h2, hc, hl, hsa]
  · intro fuel st prov secName sl acc tg h1 h2 hc hl
    simp only [List.headD_eq_head?_getD] at hc
    simp only [List.getLastD_eq_getLast?] at hl
    cases hsa : tg.standalone <;>
      simp [parseSectionGo, h1, h2, hc, hl, hsa]

/-- C3 (corrected): counterexample to the claim as stated.  The inner text
of `{{=a\tb=}}` contains a whitespace run (a tab) but no space character,
so — contrary to the claim — the delimiters do NOT become `a`/`b`: the tag
is silently ignored, the active delimiters remain `{{`/`}}`, and in
`{{=a\tb=}}a x b` the trailing text renders literally instead of being
read as an `x` variable tag under the claimed new delimiters. -/
theorem c3_counterexample :
    (match parseString (str "\x7b\x7b=a\tb=\x7d\x7d") with
     | .ok t => (t.otag, t.ctag, true)
     | .error _ => ([], [], false)) = (str "\x7b\x7b", str "\x7d\x7d", true) ∧
    (match parseString (str "\x7b\x7b=a\tb=\x7d\x7da x b") with
     | .ok t => RenderGo 100 t [.vmap [("x", .vstr (str "Z"))]]
     | .error _ => ([], some .fuelE)) = (str "a x b", none) ∧
    str "\x7b\x7b" ≠ str "a" := by
  exact ⟨by decide, by decide, by decide⟩

set_option maxHeartbeats 1000000 in
/-- C3 (corrected), amended: a delimiter-change tag must end with `=`
(else compilation fails with "Invalid meta tag"); its inner text, after
trimming the `=` markers and surrounding whitespace, is split at the first
SPACE character only: the part before the first space becomes the open
delimiter and the entire remainder after that space (retaining any further
whitespace) becomes the close delimiter for all subsequent reads; when the
inner text contains no space the delimiters are left unchanged.  (The
singleton tag `=` would make Go panic on the slice `tag[1:0]`.) -/
theorem c3_meta_tag (fuel : Nat) (st : PSt) (prov : PartialProvider)
    (tg : TagResult)
    (h1 : (readTextGo st).eof = false)
    (h2 : readTagGo (readTextGo st).st (readTextGo st).mayStandalone = .ok tg)
    (hc : tg.tag.headD ' ' = '=') :
    (∀ acc, tg.tag.getLastD ' ' ≠ '=' →
      parseGo (fuel + 1) st prov acc =
        .error (.parseE tg.st.curline (str "Invalid meta tag"))) ∧
    (∀ acc secName sl, tg.tag.getLastD ' ' ≠ '=' →
      parseSectionGo (fuel + 1) st prov secName sl acc =
        .error (.parseE tg.st.curline (str "Invalid meta tag"))) ∧
    (∀ acc, tg.tag.getLastD ' ' = '=' → 2 ≤ tg.tag.length →
      parseGo (fuel + 1) st prov acc =
        (match splitFirst ' ' (trimSpace (slice tg.tag 1 (tg.tag.length - 1))) with
         | some (no, nc) =>
           parseGo fuel { tg.st with otag := no, ctag := nc } prov
             (acc ++ [.textE (readTextGo st).text] ++
               (if tg.standalone then ([] : List Elem)
                else [.textE (readTextGo st).padding]))
         | none =>
           parseGo fuel tg.st prov
             (acc ++ [.textE (readTextGo st).text] ++
               (if tg.standalone then ([] : List Elem)
                else [.textE (readTextGo st).padding])))) ∧
    (∀ acc secName sl, tg.tag.getLastD ' ' = '=' → 2 ≤ tg.tag.length →
      parseSectionGo (fuel + 1) st prov secName sl acc =
        (match splitFirst ' ' (trimSpace (slice tg.tag 1 (tg.tag.length - 1))) with
         | some (no, nc) =>
           parseSectionGo fuel { tg.st with otag := no, ctag := nc } prov secName sl
             (acc ++ [.textE (readTextGo st).text] ++
               (if tg.standalone then ([] : List Elem)
                else [.textE (readTextGo st).padding]))
         | none =>
           parseSectionGo fuel tg.st prov secName sl
             (acc ++ [.textE (readTextGo st).text] ++
               (if tg.standalone then ([] : List Elem)
                else [.textE (readTextGo st).padding])))) := by
  simp only [List.headD_eq_head?_getD] at hc
  refine ⟨?_, ?_, ?_, ?_⟩
  · intro acc hne
    simp only [List.getLastD_eq_getLast?] at hne
    cases hsa : tg.standalone <;>
      simp [parseGo, h1, h2, hc, hne, hsa]
  · intro acc secName sl hne
    simp only [List.getLastD_eq_getLast?] at hne
    cases hsa : tg.standalone <;>
      simp [parseSectionGo, h1, h2, hc, hne, hsa]
  · intro acc heq hlen
    simp only [List.getLastD_eq_getLast?] at heq
    have hne1 : tg.tag.length ≠ 1 := by omega
    rcases hsp : splitFirst ' ' (trimSpace (slice tg.tag 1 (tg.tag.length - 1)))
      with _ | ⟨no, nc⟩ <;>
      cases hsa : tg.standalone <;>
        simp [parseGo, h1, h2, hc, heq, hne1, hsa, hsp]
  · intro acc secName sl heq hlen
    simp only [List.getLastD_eq_getLast?] at heq
    have hne1 : tg.tag.length ≠ 1 := by omega
    rcases hsp : splitFirst ' ' (trimSpace (slice tg.tag 1 (tg.tag.length - 1)))
      with _ | ⟨no, nc⟩ <;>
      cases hsa : tg.standalone <;>
        simp [parseSectionGo, h1, h2, hc, heq, hne1, hsa, hsp]

/-- C4 (corrected): counterexample to the claim's line-number statement.
In `{{#a}}\nx` the section `a` opens with a standalone tag wholly on line 1
(the template's first 6 characters contain no newline), yet the
unterminated-section error reports line 2, because the recorded start line
is the parser's line counter after the standalone tag consumed its
trailing newline. -/
theorem c4_counterexample :
    (match parseString (str "\x7b\x7b#a\x7d\x7d\nx") with
     | .error (.parseE l m) => (l, m)
     | _ => (0, [])) = (2, str "Section a has no closing tag") ∧
    ((str "\x7b\x7b#a\x7d\x7d\nx").take 6).count '\n' = 0 ∧
    (2 : Nat) ≠ 1 := ⟨by decide, by decide, by decide⟩

set_option maxHeartbeats 1000000 in
/-- C4 (corrected), amended: a close tag whose name differs from the open
section's name fails with "interleaved closing tag"; a close tag at top
level fails with "unmatched close tag"; end of input inside a section
fails with "Section <name> has no closing tag" carrying the start line the
parser recorded when it opened the section — and that recorded line is the
parser's line counter immediately after reading the opening tag, which is
one past the opening tag's own line when that tag is standalone and its
trailing newline was consumed. -/
theorem c4_section_close (fuel : Nat) (st : PSt) (prov : PartialProvider) :
    (∀ (secName : List Char) (sl : Nat) (acc : List Elem) (tg : TagResult),
      (readTextGo st).eof = false →
      readTagGo (readTextGo st).st (readTextGo st).mayStandalone = .ok tg →
      tg.tag.headD ' ' = '/' →
      trimSpace tg.tag.tail ≠ secName →
      parseSectionGo (fuel + 1) st prov secName sl acc =
        .error (.parseE tg.st.curline
          (str "interleaved closing tag: " ++ trimSpace tg.tag.tail))) ∧
    (∀ (acc : List Elem) (tg : TagResult),
      (readTextGo st).eof = false →
      readTagGo (readTextGo st).st (readTextGo st).mayStandalone = .ok tg →
      tg.tag.headD ' ' = '/' →
      parseGo (fuel + 1) st prov acc =
        .error (.parseE tg.st.curline (str "unmatched close tag"))) ∧
    (∀ (secName : List Char) (sl : Nat) (acc : List Elem),
      (readTextGo st).eof = true →
      parseSectionGo (fuel + 1) st prov secName sl acc =
        .error (.parseE sl
          (str "Section " ++ secName ++ str " has no closing tag"))) ∧
    (∀ (acc : List Elem) (tg : TagResult),
      (readTextGo st).eof = false →
      readTagGo (readTextGo st).st (readTextGo st).mayStandalone = .ok tg →
      tg.tag.headD ' ' = '#' ∨ tg.tag.headD ' ' = '^' →
      parseGo (fuel + 1) st prov acc =
        (match parseSectionGo fuel tg.st prov (trimSpace tg.tag.tail)
            tg.st.curline [] with
         | .error e => .error e
         | .ok (st2, selems) =>
           parseGo fuel st2 prov
             ((acc ++ [.textE (readTextGo st).text] ++
               (if tg.standalone then ([] : List Elem)
                else [.textE (readTextGo st).padding])) ++
              [.sectionE (trimSpace tg.tag.tail)
                (decide (tg.tag.headD ' ' = '^')) tg.st.curline selems]))) := by
  refine ⟨?_, ?_, ?_, ?_⟩
  · intro secName sl acc tg h1 h2 hc hne
    simp only [List.headD_eq_head?_getD] at hc
    simp [parseSectionGo, h1, h2, hc, hne]
  · intro acc tg h1 h2 hc
    simp only [List.headD_eq_head?_getD] at hc
    simp [parseGo, h1, h2, hc]
  · intro secName sl acc h1
    simp [parseSectionGo, h1]
  · intro acc tg h1 h2 hc
    simp only [List.headD_eq_head?_getD] at hc
    rcases hc with hc | hc <;>
      cases hsa : tg.standalone <;>
        simp [parseGo, h1, h2, hc, hsa]

set_option maxHeartbeats 1000000 in
/-- Witness for C10: in `a{{ {foo}}b` the tag body trims to `{foo`, which
starts with `{` and does not end with `}`; parsing continues past it with
only the preceding text node appended. -/
theorem c10_brace_tag_dropped_witness :
    parseGo 4 ⟨str "a\x7b\x7b \x7bfoo\x7d\x7db", str "\x7b\x7b", str "\x7d\x7d", 0, 1⟩ emptyProviderGo [] =
      parseGo 3 ⟨str "a\x7b\x7b \x7bfoo\x7d\x7db", str "\x7b\x7b", str "\x7d\x7d", 10, 1⟩ emptyProviderGo
        [.textE (str "a")] :=
  c10_brace_tag_dropped.1 3 ⟨str "a\x7b\x7b \x7bfoo\x7d\x7db", str "\x7b\x7b", str "\x7d\x7d", 0, 1⟩
    emptyProviderGo []
    ⟨str "\x7bfoo", true, ⟨str "a\x7b\x7b \x7bfoo\x7d\x7db", str "\x7b\x7b", str "\x7d\x7d", 10, 1⟩⟩
    rfl rfl rfl (by decide)

set_option maxHeartbeats 1000000 in
/-- Witness for C3's amended statement: the meta tag in `x{{=<% %>=}}`
replaces the active delimiters by `<%` and `%>` for the rest of the
compile. -/
theorem c3_meta_tag_witness :
    parseGo 4 ⟨str "x\x7b\x7b=<% %>=\x7d\x7d", str "\x7b\x7b", str "\x7d\x7d", 0, 1⟩ emptyProviderGo [] =
      parseGo 3 ⟨str "x\x7b\x7b=<% %>=\x7d\x7d", str "<%", str "%>", 12, 1⟩ emptyProviderGo
        [.textE (str "x")] :=
  (c3_meta_tag 3 ⟨str "x\x7b\x7b=<% %>=\x7d\x7d", str "\x7b\x7b", str "\x7d\x7d", 0, 1⟩ emptyProviderGo
    ⟨str "=<% %>=", true, ⟨str "x\x7b\x7b=<% %>=\x7d\x7d", str "\x7b\x7b", str "\x7d\x7d", 12, 1⟩⟩
    rfl rfl rfl).2.2.1 [] rfl (by decide)

set_option maxHeartbeats 1000000 in
/-- Witness for C4's amended statement: a mismatched close tag, a
top-level close tag, end of input inside an open section, and the
recording of the post-tag line counter when a section opens. -/
theorem c4_section_close_witness :
    parseSectionGo 4 ⟨str "\x7b\x7b/b\x7d\x7d", str "\x7b\x7b", str "\x7d\x7d", 0, 1⟩ emptyProviderGo
        (str "a") 1 [] =
      .error (.parseE 1 (str "interleaved closing tag: b")) ∧
    parseGo 4 ⟨str "\x7b\x7b/a\x7d\x7d", str "\x7b\x7b", str "\x7d\x7d", 0, 1⟩ emptyProviderGo [] =
      .error (.parseE 1 (str "unmatched close tag")) ∧
    parseSectionGo 4 ⟨str "zz", str "\x7b\x7b", str "\x7d\x7d", 0, 1⟩ emptyProviderGo
        (str "a") 7 [] =
      .error (.parseE 7 (str "Section a has no closing tag")) ∧
    parseGo 4 ⟨str "\x7b\x7b#a\x7d\x7d\x7b\x7b/a\x7d\x7d", str "\x7b\x7b", str "\x7d\x7d", 0, 1⟩ emptyProviderGo [] =
      (match parseSectionGo 3 ⟨str "\x7b\x7b#a\x7d\x7d\x7b\x7b/a\x7d\x7d", str "\x7b\x7b", str "\x7d\x7d", 6, 1⟩
          emptyProviderGo (str "a") 1 [] with
       | .error e => .error e
       | .ok (st2, selems) =>
         parseGo 3 st2 emptyProviderGo
           ([.textE ([] : List Char), .textE ([] : List Char)] ++
            [.sectionE (str "a") false 1 selems])) :=
  ⟨(c4_section_close 3 ⟨str "\x7b\x7b/b\x7d\x7d", str "\x7b\x7b", str "\x7d\x7d", 0, 1⟩
      emptyProviderGo).1 (str "a") 1 []
      ⟨str "/b", true, ⟨str "\x7b\x7b/b\x7d\x7d", str "\x7b\x7b", str "\x7d\x7d", 6, 1⟩⟩
      rfl rfl rfl (by decide),
   (c4_section_close 3 ⟨str "\x7b\x7b/a\x7d\x7d", str "\x7b\x7b", str "\x7d\x7d", 0, 1⟩
      emptyProviderGo).2.1 []
      ⟨str "/a", true, ⟨str "\x7b\x7b/a\x7d\x7d", str "\x7b\x7b", str "\x7d\x7d", 6, 1⟩⟩
      rfl rfl rfl,
   (c4_section_close 3 ⟨str "zz", str "\x7b\x7b", str "\x7d\x7d", 0, 1⟩
      emptyProviderGo).2.2.1 (str "a") 7 [] rfl,
   (c4_section_close 3 ⟨str "\x7b\x7b#a\x7d\x7d\x7b\x7b/a\x7d\x7d", str "\x7b\x7b", str "\x7d\x7d", 0, 1⟩
      emptyProviderGo).2.2.2 []
      ⟨str "#a", false, ⟨str "\x7b\x7b#a\x7d\x7d\x7b\x7b/a\x7d\x7d", str "\x7b\x7b", str "\x7d\x7d", 6, 1⟩⟩
      rfl rfl (Or.inl rfl)⟩

/-- Splitting at newlines never yields an empty piece list. -/
theorem splitOnNl_ne_nil : ∀ (d : List Char), splitOnNl d ≠ [] := by
  intro d
  cases d with
  | nil => simp [splitOnNl]
  | cons c rest =>
    by_cases h : c = '\n'
    · simp [splitOnNl, h]
    · cases hs : splitOnNl rest <;> simp [splitOnNl, h, hs]

/-- No piece produced by splitting at newlines contains a newline. -/
theorem splitOnNl_no_nl : ∀ (d : List Char), ∀ l ∈ splitOnNl d, '\n' ∉ l := by
  intro d
  induction d with
  | nil =>
    intro l hl
    simp [splitOnNl] at hl
    subst hl
    simp
  | cons c rest ih =>
    intro l hl
    by_cases h : c = '\n'
    · simp only [splitOnNl, if_pos h, List.mem_cons] at hl
      rcases hl with hl | hl
      · subst hl; simp
      · exact ih l hl
    · revert hl
      cases hs : splitOnNl rest with
      | nil => exact absurd hs (splitOnNl_ne_nil rest)
      | cons p ps =>
        simp only [splitOnNl, if_neg h, hs, List.mem_cons]
        rintro (hl | hl)
        · subst hl
          intro hmem
          rcases List.mem_cons.mp hmem with hc | hp
          · exact h hc.symm
          · exact ih p (by rw [hs]; exact List.mem_cons_self p ps) hp
        · exact ih l (by rw [hs]; exact List.mem_cons_of_mem p hl)

/-- A newline-free list splits into itself as the single piece. -/
theorem splitOnNl_nlfree : ∀ (l : List Char), '\n' ∉ l → splitOnNl l = [l] := by
  intro l
  induction l with
  | nil => intro; rfl
  | cons c rest ih =>
    intro h
    have hc : ¬(c = '\n') := fun hh => h (by simp [hh])
    have hr : '\n' ∉ rest := fun hh => h (List.mem_cons_of_mem _ hh)
    simp [splitOnNl, hc, ih hr]

/-- Splitting past a newline-free prefix peels off exactly that prefix. -/
theorem splitOnNl_append : ∀ (l t : List Char), '\n' ∉ l →
    splitOnNl (l ++ '\n' :: t) = l :: splitOnNl t := by
  intro l
  induction l with
  | nil => intro t h; simp [splitOnNl]
  | cons c rest ih =>
    intro t h
    have hc : ¬(c = '\n') := fun hh => h (by simp [hh])
    have hr : '\n' ∉ rest := fun hh => h (List.mem_cons_of_mem _ hh)
    simp [splitOnNl, hc, ih t hr]

/-- Rejoining newline-free pieces and splitting again is the identity. -/
theorem splitOnNl_joinNl : ∀ (ls : List (List Char)), ls ≠ [] →
    (∀ l ∈ ls, '\n' ∉ l) → splitOnNl (joinNl ls) = ls := by
  intro ls
  induction ls with
  | nil => intro h; exact absurd rfl h
  | cons l rest ih =>
    intro _ hnl
    cases rest with
    | nil => simpa [joinNl] using splitOnNl_nlfree l (hnl l (by simp))
    | cons l2 rest2 =>
      have h1 : '\n' ∉ l := hnl l (by simp)
      show splitOnNl (l ++ '\n' :: joinNl (l2 :: rest2)) = l :: l2 :: rest2
      rw [splitOnNl_append l _ h1,
          ih (by simp) (fun x hx => hnl x (List.mem_cons_of_mem _ hx))]

/-- C8 (confirmed): rendering a partial node asks the provider for the
partial's raw source at render time, re-indents every non-empty line with
the node's captured indentation, compiles the result as a fresh
sub-template sharing the same provider (with the default missing-variable
configuration), and renders it against the unmodified enclosing chain; a
provider error aborts the render.  No compiled form is stored on the node,
so this happens anew on every render. -/
theorem c8_part_node_render (fuel : Nat) (tmpl : Template)
    (name indent : List Char) (prov : PartialProvider) (chain : List Val)
    (buf : List Char) :
    (renderElemGo (fuel + 1) tmpl (.partE name indent prov) chain buf =
      match getPartials prov name indent with
      | .error e => (buf, some e)
      | .ok sub => renderTemplateGo fuel sub chain buf) ∧
    (getPartials prov name indent =
      match prov name with
      | .error e => .error e
      | .ok d => parseStringPartials (indentLines indent d) prov) ∧
    (∀ e, prov name = .error e →
      renderElemGo (fuel + 1) tmpl (.partE name indent prov) chain buf =
        (buf, some e)) ∧
    (∀ (d : List Char) (sub : Template),
      prov name = .ok d → getPartials prov name indent = .ok sub →
      sub.prov = prov ∧ sub.data = indentLines indent d ∧
        sub.errmiss = false) ∧
    (∀ (d : List Char), '\n' ∉ indent →
      splitOnNl (indentLines indent d) =
        (splitOnNl d).map (fun l => if l.isEmpty then l else indent ++ l)) := by
  refine ⟨?_, rfl, ?_, ?_, ?_⟩
  · cases h : getPartials prov name indent <;> simp [renderElemGo, h]
  · intro e he
    simp [renderElemGo, getPartials, he]
  · intro d sub hd hsub
    simp only [getPartials, hd] at hsub
    simp only [parseStringPartials] at hsub
    rcases hp : parseGo ((indentLines indent d).length + 1)
        ⟨indentLines indent d, str "\x7b\x7b", str "\x7d\x7d", 0, 1⟩ prov []
      with e | ⟨st, elems⟩ <;> rw [hp] at hsub
    · cases hsub
    · cases hsub
      exact ⟨rfl, rfl, rfl⟩
  · intro d hnl
    rw [indentLines]
    rw [splitOnNl_joinNl]
    · simp [splitOnNl_ne_nil d]
    · intro x hx
      rcases List.mem_map.mp hx with ⟨y, hy, hfy⟩
      subst hfy
      by_cases hye : y.isEmpty
      · simpa [hye] using splitOnNl_no_nl d y hy
      · simp only [hye, if_neg, Bool.false_eq_true, not_false_eq_true]
        intro hmem
        rcases List.mem_append.mp hmem with hmem | hmem
        · exact hnl hmem
        · exact splitOnNl_no_nl d y hy hmem

/-- Witness for C8: an unknown partial name under the static provider
aborts the render with the partial-not-found error, and the
re-indentation of `x\ny` with two spaces prefixes both lines. -/
theorem c8_part_node_render_witness :
    renderElemGo 1 tmpl0 (.partE (str "q") [] (staticProviderGo [])) [] [] =
      ([], some (.notFoundE (str "q"))) ∧
    splitOnNl (indentLines (str "  ") (str "x\ny")) =
      (splitOnNl (str "x\ny")).map
        (fun l => if l.isEmpty then l else str "  " ++ l) :=
  ⟨(c8_part_node_render 0 tmpl0 (str "q") [] (staticProviderGo []) [] []).2.2.1
      (.notFoundE (str "q")) rfl,
   (c8_part_node_render 0 tmpl0 (str "q") (str "  ") (staticProviderGo []) [] []).2.2.2.2
      (str "x\ny") (by decide)⟩

end Mustache
